import Mathlib

set_option maxRecDepth 20000

/-!
Verification development for the trailing-annualized-return pipeline in
`process_database.py`.  The two functions with algorithmic content are shallowly
embedded below:

* `find_closest_trading_day` — the date-alignment search (source lines 8–38),
  operating on the sorted array of observation dates.  The source compares
  `numpy.datetime64` values; we model each observation date by its serial day
  number in the proleptic Gregorian calendar, so comparisons agree exactly.
* `calculate_returns_optimized` — the per-period return table builder
  (source lines 40–131).  Pandas dataframes are modelled column-orientedly:
  a `Date` column (`List Date`) plus numeric columns (`List (Option ℚ)`,
  where `none` is the missing value `NaN` that `pd.to_numeric(..,
  errors := coerce)` produces for empty or unparseable cells).  Sorting by
  date is modelled, as pandas does internally, by an argsort permutation of
  row indices applied to every column.

The only part of the source that is not exactly representable by computable
arithmetic is the final float computation
`(((1 + total_return) ** (1 / actual_years)) - 1) * 100` together with the
2-decimal `%`-formatting; it is modelled by the same expression over the real
numbers (`Real.rpow`) and exact half-up rounding.  Everything that decides
*whether* a cell is empty, and every date/index computation, is computable.
-/

/-- Gregorian leap-year test (the calendar of pandas `Timestamp`). -/
def isLeapYear (y : Nat) : Bool :=
  (y % 4 == 0 && y % 100 != 0) || (y % 400 == 0)

/-- Number of days in month `m` (1–12) of year `y`. -/
def daysInMonth (y : Nat) (m : Nat) : Nat :=
  if m = 2 then (if isLeapYear y then 29 else 28)
  else if m = 4 ∨ m = 6 ∨ m = 9 ∨ m = 11 then 30
  else 31

/-- Number of days in year `y`. -/
def daysInYear (y : Nat) : Nat :=
  if isLeapYear y then 366 else 365

/-- Number of leap years among `1, …, y`. -/
def leapYearsBefore (y : Nat) : Nat :=
  y / 4 - y / 100 + y / 400

/-- Total number of days in the years `1, …, y`. -/
def daysBeforeYear (y : Nat) : Nat :=
  365 * y + leapYearsBefore y

/-- Total number of days in the months `1, …, m` of year `y`. -/
def daysBeforeMonth (y : Nat) : Nat → Nat
  | 0 => 0
  | m + 1 => daysBeforeMonth y m + daysInMonth y (m + 1)

/-- A calendar date as carried by the `Date` column. -/
structure Date where
  year : Nat
  month : Nat
  day : Nat
deriving DecidableEq

/-- Serial day number of a date: the value by which `numpy.datetime64`
comparisons and `Timestamp` subtraction (`.days`) are decided. -/
def Date.toSerial (dt : Date) : Nat :=
  daysBeforeYear (dt.year - 1) + daysBeforeMonth dt.year (dt.month - 1) + dt.day

/-- The date is an actual calendar date of the common era (every date a
pandas `Timestamp` can carry is one). -/
def Date.Valid (dt : Date) : Prop :=
  1 ≤ dt.year ∧ 1 ≤ dt.month ∧ dt.month ≤ 12 ∧
    1 ≤ dt.day ∧ dt.day ≤ daysInMonth dt.year dt.month

instance (dt : Date) : Decidable dt.Valid := by
  unfold Date.Valid; infer_instance

/-- Shift a date by `n` calendar years, clamping the day to the length of the
target month, exactly as `pandas.DateOffset(years = n)` does
(e.g. Feb 29 2020 + 1 year = Feb 28 2021). -/
def Date.addYears (n : Nat) (dt : Date) : Date :=
  { year := dt.year + n
    month := dt.month
    day := min dt.day (daysInMonth (dt.year + n) dt.month) }

/-- Left-pad a number below 100 to two digits, as `%m`/`%d` do. -/
def pad2 (n : Nat) : String :=
  (if n < 10 then "0" else "") ++ toString n

/-- Format a date the way the source does: `strftime(%m/%d/%Y)`. -/
def dateStr (dt : Date) : String :=
  pad2 dt.month ++ "/" ++ pad2 dt.day ++ "/" ++ toString dt.year

/-- Model of `find_closest_trading_day(dates_array, target_date, start_index)`
(source lines 8–38).  `dates_array` holds the serial day numbers of the sorted
observation dates.  `np.where(cond)[0]` is modelled by filtering `List.range`
with the condition; its element `[0]` by `head?` and `[-1]` by `getLast?`. -/
def find_closest_trading_day (dates_array : List Nat) (target_date : Nat)
    (start_index : Nat) : Option Nat :=
  let available_dates := dates_array.drop start_index
  if h : available_dates = [] then none
  else
    if target_date > available_dates.getLast h then none
    else
      let exact_matches := (List.range available_dates.length).filter
        (fun k => available_dates.getD k 0 == target_date)
      match exact_matches.head? with
      | some k => some (start_index + k)
      | none =>
        let past_dates_idx := (List.range available_dates.length).filter
          (fun k => decide (available_dates.getD k 0 < target_date))
        match past_dates_idx.getLast? with
        | some k => some (start_index + k)
        | none => none

/-- Ordering of row indices by date serial, with index order as tie-break:
the argsort permutation `df.sort_values(Date)` applies to every column. -/
def sortKey (serials : List Nat) (i j : Nat) : Prop :=
  serials.getD i 0 < serials.getD j 0 ∨ (serials.getD i 0 = serials.getD j 0 ∧ i ≤ j)

instance (serials : List Nat) : DecidableRel (sortKey serials) := fun _ _ => by
  unfold sortKey; infer_instance

/-- The argsort permutation of the rows used by `df.sort_values(Date)`. -/
def sortPerm (serials : List Nat) : List Nat :=
  List.insertionSort (sortKey serials) (List.range serials.length)

/-- The `Date` column after sorting. -/
def sortedDates (dates : List Date) : List Date :=
  (sortPerm (dates.map Date.toSerial)).map (fun i => dates.getD i ⟨0, 0, 0⟩)

/-- A numeric column after the sort of the whole frame by `Date`. -/
def sortedCol (dates : List Date) (col : List (Option ℚ)) : List (Option ℚ) :=
  (sortPerm (dates.map Date.toSerial)).map (fun i => col.getD i none)

/-- Model of source lines 64–71: for every row `i` of the sorted frame, the
target date is `Date[i] + DateOffset(years)` and the matched end index is
`find_closest_trading_day(dates_array, target, i)`.  `dates` must be the
already-sorted date column. -/
def toIndices (dates : List Date) (years : Nat) : List (Option Nat) :=
  let dates_array := dates.map Date.toSerial
  let target_dates := dates.map (fun dt => (Date.addYears years dt).toSerial)
  (List.range dates.length).map
    (fun i => find_closest_trading_day dates_array (target_dates.getD i 0) i)

/-- Model of the per-cell return computation, source lines 94–117.  The result
is `none` exactly when the source appends the empty string, and
`some (total_return, actual_years)` when the source appends the formatted
annualized percentage (whose two arguments these are).  `series` holds the
column after `pd.to_numeric(..., errors = coerce)`: `none` is `NaN`. -/
def computeCell (dates_array : List Nat) (series : List (Option ℚ)) (years : Nat)
    (i : Nat) (to_idx : Option Nat) : Option (ℚ × ℚ) :=
  match to_idx with
  | none => none
  | some j =>
    match series.getD i none, series.getD j none with
    | some start_val, some end_val =>
      if start_val ≠ 0 then
        let total_return : ℚ := end_val / start_val - 1
        let actual_days : Int := (dates_array.getD j 0 : Int) - (dates_array.getD i 0 : Int)
        if actual_days > 0 then
          let actual_years : ℚ := (actual_days : ℚ) / (1461 / 4)
          if actual_years ≥ (years : ℚ) * (1 / 2) then some (total_return, actual_years)
          else none
        else none
      else none
    | _, _ => none

/-- One row of a period's `result_df`.  `cells` holds, per numeric column, the
arguments of the formatted annualized return, or `none` for an empty cell;
`cellStr` below recovers the literal string content. -/
structure ResultRow where
  fromDate : String
  toDate : String
  cells : List (Option (ℚ × ℚ))
deriving DecidableEq

/-- The period result before the final row filter (source lines 60–123):
`From` and `To` date strings plus every numeric column's cell. -/
def preResult (dates : List Date) (cols : List (List (Option ℚ)))
    (years : Nat) : List ResultRow :=
  let sdates := sortedDates dates
  let dates_array := sdates.map Date.toSerial
  let to_indices := toIndices sdates years
  (List.range sdates.length).map (fun i =>
    { fromDate := dateStr (sdates.getD i ⟨0, 0, 0⟩)
      toDate :=
        match to_indices.getD i none with
        | some j => dateStr (sdates.getD j ⟨0, 0, 0⟩)
        | none => ""
      cells := cols.map (fun col =>
        computeCell dates_array (sortedCol dates col) years i
          (to_indices.getD i none)) })

/-- Model of `calculate_returns_optimized(df, years)` (source lines 40–131):
the pre-filter table with every row whose `To` string is empty removed. -/
def calculate_returns_optimized (dates : List Date) (cols : List (List (Option ℚ)))
    (years : Nat) : List ResultRow :=
  (preResult dates cols years).filter (fun r => r.toDate != "")

/-- The count reported at source line 128:
`len(result_df) - valid_rows.sum()`. -/
def droppedRowCount (dates : List Date) (cols : List (List (Option ℚ)))
    (years : Nat) : Nat :=
  (preResult dates cols years).length - (calculate_returns_optimized dates cols years).length

/-- The fixed period list of `main` (source line 154). -/
def periods : List Nat := [1, 3, 5, 7, 10]

/-- The per-period results of the full run (source lines 157–161). -/
def allPeriodsResult (dates : List Date) (cols : List (List (Option ℚ))) :
    List (List ResultRow) :=
  periods.map (fun years => calculate_returns_optimized dates cols years)

/-- Real-number model of source line 107:
`(((1 + total_return) ** (1 / actual_years)) - 1) * 100`. -/
noncomputable def annualizedReturnPct (total_return actual_years : ℚ) : ℝ :=
  (((1 + (total_return : ℝ)) ^ ((1 : ℝ) / (actual_years : ℝ))) - 1) * 100

/-- Decimal rendering of `n / 100` with exactly two decimal places, matching
the integer that `%.2f`-formatting rounds to. -/
def twoDecString (n : Int) : String :=
  (if n < 0 then "-" else "") ++ toString (n.natAbs / 100) ++ "." ++ pad2 (n.natAbs % 100)

/-- Model of the source's `%.2f%%`-formatting at line 108: round to two
decimals (the computed values are never at a rounding tie, so half-up rounding
agrees with the float formatting) and append the percent sign. -/
noncomputable def fmtPercent (x : ℝ) : String :=
  twoDecString ⌊x * 100 + 1 / 2⌋ ++ "%"

/-- The literal string content of a cell of the result table. -/
noncomputable def cellStr (c : Option (ℚ × ℚ)) : String :=
  match c with
  | none => ""
  | some p => fmtPercent (annualizedReturnPct p.1 p.2)

/-- Scenario A of the specification: the date column. -/
def scenarioDates : List Date := [⟨2020, 1, 1⟩, ⟨2021, 1, 1⟩, ⟨2022, 1, 1⟩]

/-- Scenario A of the specification: one series column `[100, 110, 121]`. -/
def scenarioCols : List (List (Option ℚ)) := [[some 100, some 110, some 121]]

example : sortPerm (scenarioDates.map Date.toSerial) = [0, 1, 2] := by decide
example : sortedDates scenarioDates = scenarioDates := by decide
example : toIndices scenarioDates 1 = [some 1, some 2, none] := by decide

/-- Evaluation of `computeCell` in the fully valid case: both endpoints
present, nonzero start, positive elapsed days, window long enough. -/
theorem computeCell_eq_some (dates_array : List Nat) (series : List (Option ℚ))
    (years i j : Nat) (sv ev : ℚ)
    (hs : series.getD i none = some sv) (he : series.getD j none = some ev)
    (h0 : sv ≠ 0) (hd : dates_array.getD i 0 < dates_array.getD j 0)
    (hg : ((dates_array.getD j 0 : ℚ) - (dates_array.getD i 0 : ℚ)) / (1461 / 4) ≥
      (years : ℚ) * (1 / 2)) :
    computeCell dates_array series years i (some j) =
      some (ev / sv - 1,
        ((dates_array.getD j 0 : ℚ) - (dates_array.getD i 0 : ℚ)) / (1461 / 4)) := by
  have hcast : (((dates_array.getD j 0 : Int) - (dates_array.getD i 0 : Int) : Int) : ℚ) =
      ((dates_array.getD j 0 : ℚ) - (dates_array.getD i 0 : ℚ)) := by push_cast; ring
  simp only [computeCell, hs, he]
  rw [if_pos h0]
  rw [if_pos (by omega)]
  rw [if_pos (by rw [hcast]; exact hg), hcast]

/-- Evaluation of `computeCell` when the minimum-window guard fails. -/
theorem computeCell_eq_none_of_short (dates_array : List Nat)
    (series : List (Option ℚ)) (years i j : Nat) (sv ev : ℚ)
    (hs : series.getD i none = some sv) (he : series.getD j none = some ev)
    (h0 : sv ≠ 0) (hd : dates_array.getD i 0 < dates_array.getD j 0)
    (hg : ((dates_array.getD j 0 : ℚ) - (dates_array.getD i 0 : ℚ)) / (1461 / 4) <
      (years : ℚ) * (1 / 2)) :
    computeCell dates_array series years i (some j) = none := by
  have hcast : (((dates_array.getD j 0 : Int) - (dates_array.getD i 0 : Int) : Int) : ℚ) =
      ((dates_array.getD j 0 : ℚ) - (dates_array.getD i 0 : ℚ)) := by push_cast; ring
  simp only [computeCell, hs, he]
  rw [if_pos h0]
  rw [if_pos (by omega)]
  rw [if_neg (by rw [hcast]; exact not_le.mpr hg)]

/-- Evaluation of `computeCell` when an endpoint is missing, the start value is
zero, or the elapsed days are non-positive. -/
theorem computeCell_eq_none_of_invalid (dates_array : List Nat)
    (series : List (Option ℚ)) (years i j : Nat)
    (h : series.getD i none = none ∨ series.getD j none = none ∨
      series.getD i none = some 0 ∨ dates_array.getD j 0 ≤ dates_array.getD i 0) :
    computeCell dates_array series years i (some j) = none := by
  rcases h3 : series.getD i none with _ | sv <;>
    rcases h4 : series.getD j none with _ | ev <;>
    simp only [computeCell, h3, h4]
  rcases h with h | h | h | h
  · rw [h3] at h; simp at h
  · rw [h4] at h; simp at h
  · rw [h3] at h
    rw [if_neg (by simp [Option.some_inj.mp h])]
  · by_cases hsv : sv = 0
    · rw [if_neg (by simp [hsv])]
    · rw [if_pos hsv, if_neg (by omega)]

theorem cellStr_none : cellStr none = "" := rfl

theorem twoDecString_length (n : Int) : 1 ≤ (twoDecString n).length := by
  rw [twoDecString, String.length_append, String.length_append, String.length_append]
  have : 1 ≤ String.length "." := by decide
  omega

theorem fmtPercent_ne_empty (x : ℝ) : fmtPercent x ≠ "" := by
  intro h
  have h1 := congrArg String.length h
  rw [fmtPercent, String.length_append] at h1
  have h2 := twoDecString_length ⌊x * 100 + 1 / 2⌋
  have h3 : String.length "" = 0 := by decide
  omega

theorem cellStr_eq_empty_iff (c : Option (ℚ × ℚ)) : cellStr c = "" ↔ c = none := by
  cases c with
  | none => simp [cellStr]
  | some p => simp [cellStr, fmtPercent_ne_empty]

/-- C4: for every matched row with both endpoint values present, a nonzero
start value, and positive elapsed days, the cell is empty if and only if
`actualYears = actualDays / 365.25` is strictly below `years * 0.5`; at or
above the threshold the cell carries the formatted annualized percentage. -/
theorem minimum_window_guard (dates_array : List Nat) (series : List (Option ℚ))
    (years i j : Nat) (sv ev : ℚ)
    (hs : series.getD i none = some sv) (he : series.getD j none = some ev)
    (h0 : sv ≠ 0) (hd : dates_array.getD i 0 < dates_array.getD j 0) :
    (cellStr (computeCell dates_array series years i (some j)) = "" ↔
      ((dates_array.getD j 0 : ℚ) - (dates_array.getD i 0 : ℚ)) / (1461 / 4) <
        (years : ℚ) * (1 / 2)) ∧
    ((years : ℚ) * (1 / 2) ≤
        ((dates_array.getD j 0 : ℚ) - (dates_array.getD i 0 : ℚ)) / (1461 / 4) →
      cellStr (computeCell dates_array series years i (some j)) =
        fmtPercent (annualizedReturnPct (ev / sv - 1)
          (((dates_array.getD j 0 : ℚ) - (dates_array.getD i 0 : ℚ)) / (1461 / 4)))) := by
  constructor
  · by_cases hg : ((dates_array.getD j 0 : ℚ) - (dates_array.getD i 0 : ℚ)) / (1461 / 4) <
        (years : ℚ) * (1 / 2)
    · rw [computeCell_eq_none_of_short dates_array series years i j sv ev hs he h0 hd hg]
      exact iff_of_true cellStr_none hg
    · rw [computeCell_eq_some dates_array series years i j sv ev hs he h0 hd (not_lt.mp hg)]
      simp only [cellStr]
      exact iff_of_false (fmtPercent_ne_empty _) hg
  · intro hg
    rw [computeCell_eq_some dates_array series years i j sv ev hs he h0 hd hg]
    rfl

theorem minimum_window_guard_witness :
    (([some 100, some 110] : List (Option ℚ)).getD 0 none = some 100 ∧
      ([some 100, some 110] : List (Option ℚ)).getD 1 none = some 110 ∧
      (100 : ℚ) ≠ 0 ∧ ([0, 366] : List Nat).getD 0 0 < ([0, 366] : List Nat).getD 1 0) ∧
    (cellStr (computeCell [0, 366] [some 100, some 110] 1 0 (some 1)) = "" ↔
      ((([0, 366] : List Nat).getD 1 0 : ℚ) - (([0, 366] : List Nat).getD 0 0 : ℚ)) / (1461 / 4) <
        ((1 : Nat) : ℚ) * (1 / 2)) :=
  ⟨⟨rfl, rfl, by simp, by decide⟩,
    (minimum_window_guard [0, 366] [some 100, some 110] 1 0 1 100 110 rfl rfl
      (by simp) (by decide)).1⟩

/-- C5: for every row `i` with a matched end index `j` and every series
column, a missing endpoint value, a zero start value, or non-positive elapsed
days yields an empty return cell. -/
theorem invalid_inputs_empty_cell (dates_array : List Nat)
    (series : List (Option ℚ)) (years i j : Nat)
    (h : series.getD i none = none ∨ series.getD j none = none ∨
      series.getD i none = some 0 ∨ dates_array.getD j 0 ≤ dates_array.getD i 0) :
    cellStr (computeCell dates_array series years i (some j)) = "" := by
  rw [computeCell_eq_none_of_invalid dates_array series years i j h]
  rfl

theorem invalid_inputs_empty_cell_witness :
    (([some 0, some 110] : List (Option ℚ)).getD 0 none = none ∨
      ([some 0, some 110] : List (Option ℚ)).getD 1 none = none ∨
      ([some 0, some 110] : List (Option ℚ)).getD 0 none = some 0 ∨
      ([0, 366] : List Nat).getD 1 0 ≤ ([0, 366] : List Nat).getD 0 0) ∧
    cellStr (computeCell [0, 366] [some 0, some 110] 1 0 (some 1)) = "" :=
  ⟨Or.inr (Or.inr (Or.inl rfl)),
    invalid_inputs_empty_cell [0, 366] [some 0, some 110] 1 0 1
      (Or.inr (Or.inr (Or.inl rfl)))⟩

/-- Elements of a `(· ≤ ·)`-pairwise list are bounded by its last element. -/
theorem mem_le_getLast? (l : List Nat) (a x : Nat)
    (hp : l.Pairwise (· ≤ ·)) (hl : l.getLast? = some a) (hx : x ∈ l) : x ≤ a := by
  have hne : l ≠ [] := by intro h0; rw [h0] at hl; cases hl
  have ha : l.getLast hne = a := by
    rw [List.getLast?_eq_getLast l hne] at hl; exact Option.some_inj.mp hl
  obtain ⟨i, hi, hxi⟩ := List.mem_iff_getElem.mp hx
  have hlen : 0 < l.length := List.length_pos.mpr hne
  have hlast : l.getLast hne = l[l.length - 1] := List.getLast_eq_getElem l hne
  rcases Nat.lt_or_ge i (l.length - 1) with hlt | hge
  · have hrel := List.pairwise_iff_getElem.mp hp i (l.length - 1) hi (by omega) hlt
    rw [← ha, hlast, ← hxi]; exact hrel
  · have hieq : i = l.length - 1 := by omega
    subst hieq; rw [← ha, hlast, ← hxi]

/-- The first index produced by filtering `List.range` satisfies the predicate,
is in range, and is minimal. -/
theorem head?_filter_range (m : Nat) (p : Nat → Bool) (k : Nat)
    (h : ((List.range m).filter p).head? = some k) :
    p k = true ∧ k < m ∧ ∀ x, x < k → p x = false := by
  have hk : k ∈ (List.range m).filter p := List.mem_of_mem_head? h
  have hmem := List.mem_filter.mp hk
  refine ⟨hmem.2, List.mem_range.mp hmem.1, ?_⟩
  intro x hx
  by_contra hpx
  have hpx' : p x = true := by revert hpx; cases p x <;> simp
  have hkm : k < m := List.mem_range.mp hmem.1
  have hxm : x ∈ (List.range m).filter p :=
    List.mem_filter.mpr ⟨List.mem_range.mpr (by omega), hpx'⟩
  have hpw : ((List.range m).filter p).Pairwise (· < ·) :=
    (List.pairwise_lt_range m).filter p
  cases hl : (List.range m).filter p with
  | nil => rw [hl] at h; cases h
  | cons a t =>
    rw [hl] at h hxm hpw
    have hak : a = k := by simp only [List.head?] at h; exact Option.some_inj.mp h
    subst hak
    rcases List.mem_cons.mp hxm with rfl | hxt
    · omega
    · have := (List.pairwise_cons.mp hpw).1 x hxt; omega

/-- The last index produced by filtering `List.range` satisfies the predicate,
is in range, and is maximal. -/
theorem getLast?_filter_range (m : Nat) (p : Nat → Bool) (k : Nat)
    (h : ((List.range m).filter p).getLast? = some k) :
    p k = true ∧ k < m ∧ ∀ x, x < m → p x = true → x ≤ k := by
  have hne : (List.range m).filter p ≠ [] := by intro h0; rw [h0] at h; cases h
  have hk : k ∈ (List.range m).filter p := by
    have hmem := List.getLast_mem hne
    rw [List.getLast?_eq_getLast _ hne] at h
    rwa [Option.some_inj.mp h] at hmem
  have hmem := List.mem_filter.mp hk
  refine ⟨hmem.2, List.mem_range.mp hmem.1, ?_⟩
  intro x hx hpx
  have hxm : x ∈ (List.range m).filter p :=
    List.mem_filter.mpr ⟨List.mem_range.mpr hx, hpx⟩
  exact mem_le_getLast? _ k x
    (((List.pairwise_lt_range m).filter p).imp (fun hab => Nat.le_of_lt hab)) h hxm

/-- Reading the dropped list at `k` is reading the original at `b + k`. -/
theorem getD_drop_eq (D : List Nat) (b k : Nat) (h : b + k < D.length) :
    (D.drop b).getD k 0 = D.getD (b + k) 0 := by
  have hk : k < (D.drop b).length := by rw [List.length_drop]; omega
  rw [List.getD_eq_getElem _ _ hk, List.getD_eq_getElem _ _ h]
  exact (List.getElem_drop' D h).symm

/-- Any index returned by the search is in bounds and carries a date at or
before the target. -/
theorem find_closest_some_le (D : List Nat) (t b j : Nat)
    (h : find_closest_trading_day D t b = some j) :
    b ≤ j ∧ j < D.length ∧ D.getD j 0 ≤ t := by
  simp only [find_closest_trading_day] at h
  split at h
  · cases h
  next hne =>
    split at h
    · cases h
    next hguard =>
      split at h
      next k hk =>
        obtain ⟨hpk, hkm, _⟩ := head?_filter_range _ _ k hk
        have hj : b + k = j := Option.some_inj.mp h
        have hlen : b + k < D.length := by
          rw [List.length_drop] at hkm; omega
        have hval : (D.drop b).getD k 0 = t := by simpa using hpk
        rw [getD_drop_eq D b k hlen] at hval
        exact ⟨by omega, by omega, by rw [← hj, hval]⟩
      next hk =>
        split at h
        next k hk2 =>
          obtain ⟨hpk, hkm, _⟩ := getLast?_filter_range _ _ k hk2
          have hj : b + k = j := Option.some_inj.mp h
          have hlen : b + k < D.length := by
            rw [List.length_drop] at hkm; omega
          have hval : (D.drop b).getD k 0 < t := by simpa using hpk
          rw [getD_drop_eq D b k hlen] at hval
          exact ⟨by omega, by omega, by rw [← hj]; exact Nat.le_of_lt hval⟩
        next => cases h

/-- If the returned index carries the target exactly, it is the first such
index at or after the lower bound. -/
theorem find_closest_some_exact (D : List Nat) (t b j : Nat)
    (h : find_closest_trading_day D t b = some j) (heq : D.getD j 0 = t) :
    ∀ k, b ≤ k → k < j → D.getD k 0 ≠ t := by
  obtain ⟨hbj, hjn, -⟩ := find_closest_some_le D t b j h
  simp only [find_closest_trading_day] at h
  split at h
  · cases h
  next hne =>
    split at h
    · cases h
    next hguard =>
      split at h
      next k0 hk0 =>
        obtain ⟨hpk, hkm, hmin⟩ := head?_filter_range _ _ k0 hk0
        have hj : b + k0 = j := Option.some_inj.mp h
        intro k hbk hkj hkt
        have hlen : b + (k - b) < D.length := by omega
        have hfalse := hmin (k - b) (by omega)
        have : (D.drop b).getD (k - b) 0 = t := by
          rw [getD_drop_eq D b (k - b) hlen]
          have hb : b + (k - b) = k := by omega
          rw [hb]; exact hkt
        rw [this] at hfalse
        simp at hfalse
      next =>
        split at h
        next k0 hk0 =>
          obtain ⟨hpk, hkm, -⟩ := getLast?_filter_range _ _ k0 hk0
          have hj : b + k0 = j := Option.some_inj.mp h
          have hlen : b + k0 < D.length := by
            rw [List.length_drop] at hkm; omega
          have hval : (D.drop b).getD k0 0 < t := by simpa using hpk
          rw [getD_drop_eq D b k0 hlen, hj, heq] at hval
          omega
        next => cases h

/-- If the returned index carries a date strictly before the target, it is the
greatest in-bounds index carrying a date strictly before the target. -/
theorem find_closest_some_below (D : List Nat) (t b j : Nat)
    (h : find_closest_trading_day D t b = some j) (hlt : D.getD j 0 < t) :
    ∀ k, b ≤ k → k < D.length → D.getD k 0 < t → k ≤ j := by
  simp only [find_closest_trading_day] at h
  split at h
  · cases h
  next hne =>
    split at h
    · cases h
    next hguard =>
      split at h
      next k0 hk0 =>
        obtain ⟨hpk, hkm, -⟩ := head?_filter_range _ _ k0 hk0
        have hj : b + k0 = j := Option.some_inj.mp h
        have hlen : b + k0 < D.length := by
          rw [List.length_drop] at hkm; omega
        have hval : (D.drop b).getD k0 0 = t := by simpa using hpk
        rw [getD_drop_eq D b k0 hlen, hj] at hval
        omega
      next =>
        split at h
        next k0 hk0 =>
          obtain ⟨hpk, hkm, hmax⟩ := getLast?_filter_range _ _ k0 hk0
          have hj : b + k0 = j := Option.some_inj.mp h
          intro k hbk hkn hkval
          have hkslice : k - b < (D.drop b).length := by
            rw [List.length_drop]; omega
          have hple : (D.drop b).getD (k - b) 0 < t := by
            rw [getD_drop_eq D b (k - b) (by omega)]
            have hb : b + (k - b) = k := by omega
            rw [hb]; exact hkval
          have := hmax (k - b) hkslice (by simpa using hple)
          omega
        next => cases h

/-- If the returned index carries a date strictly before the target, no
in-bounds index at or after the lower bound carries the target. -/
theorem find_closest_some_no_exact (D : List Nat) (t b j : Nat)
    (h : find_closest_trading_day D t b = some j) (hlt : D.getD j 0 < t) :
    ∀ k, b ≤ k → k < D.length → D.getD k 0 ≠ t := by
  simp only [find_closest_trading_day] at h
  split at h
  · cases h
  next hne =>
    split at h
    · cases h
    next hguard =>
      split at h
      next k0 hk0 =>
        obtain ⟨hpk, hkm, -⟩ := head?_filter_range _ _ k0 hk0
        have hj : b + k0 = j := Option.some_inj.mp h
        have hlen : b + k0 < D.length := by
          rw [List.length_drop] at hkm; omega
        have hval : (D.drop b).getD k0 0 = t := by simpa using hpk
        rw [getD_drop_eq D b k0 hlen, hj] at hval
        omega
      next hnohead =>
        split at h
        next k0 hk0 =>
          intro k hbk hkn hkt
          have hempty : ((List.range (D.drop b).length).filter
              (fun x => (D.drop b).getD x 0 == t)) = [] := by
            rwa [← List.head?_eq_none_iff]
          have hkslice : k - b ∈ List.range (D.drop b).length := by
            rw [List.mem_range, List.length_drop]; omega
          have hkp : ((D.drop b).getD (k - b) 0 == t) = true := by
            rw [getD_drop_eq D b (k - b) (by omega)]
            have hb : b + (k - b) = k := by omega
            rw [hb]; simpa using hkt
          have := List.filter_eq_nil_iff.mp hempty (k - b) hkslice
          rw [hkp] at this; cases this rfl
        next => cases h

/-- C8: the search never returns an index below the lower bound, and an empty
restricted slice yields no match. -/
theorem lower_bound_respect (dates_array : List Nat) (target_date start_index : Nat) :
    (∀ j, find_closest_trading_day dates_array target_date start_index = some j →
      start_index ≤ j) ∧
    (dates_array.drop start_index = [] →
      find_closest_trading_day dates_array target_date start_index = none) := by
  constructor
  · intro j hj
    exact (find_closest_some_le dates_array target_date start_index j hj).1
  · intro h
    simp only [find_closest_trading_day]
    rw [dif_pos h]

theorem lower_bound_respect_witness :
    (find_closest_trading_day [10, 20, 30] 25 1 = some 1 ∧ 1 ≤ 1) ∧
    (([10, 20, 30] : List Nat).drop 3 = [] ∧
      find_closest_trading_day [10, 20, 30] 25 3 = none) :=
  ⟨⟨by decide, (lower_bound_respect [10, 20, 30] 25 1).1 1 (by decide)⟩,
    ⟨by decide, (lower_bound_respect [10, 20, 30] 25 3).2 (by decide)⟩⟩

/-- Reading a sorted list at increasing indices gives non-decreasing values. -/
theorem sorted_getD_mono (D : List Nat) (hsort : D.Sorted (· ≤ ·)) (i j : Nat)
    (hij : i ≤ j) (hj : j < D.length) : D.getD i 0 ≤ D.getD j 0 := by
  rcases Nat.eq_or_lt_of_le hij with rfl | hlt
  · exact Nat.le_refl _
  · rw [List.getD_eq_getElem _ _ (by omega), List.getD_eq_getElem _ _ hj]
    exact List.pairwise_iff_getElem.mp hsort i j (by omega) hj hlt

/-- The value at an in-bounds index at or after `b` belongs to the slice. -/
theorem getD_mem_drop (D : List Nat) (b j : Nat) (hbj : b ≤ j) (hj : j < D.length) :
    D.getD j 0 ∈ D.drop b := by
  have h1 : b + (j - b) = j := by omega
  have h2 : (D.drop b).getD (j - b) 0 = D.getD j 0 := by
    rw [getD_drop_eq D b (j - b) (by omega), h1]
  have hlen : j - b < (D.drop b).length := by rw [List.length_drop]; omega
  rw [← h2, List.getD_eq_getElem _ _ hlen]
  exact List.getElem_mem hlen

/-- A successful search implies the slice is nonempty and the target is at or
before its last date (the no-extrapolation guard was passed). -/
theorem find_closest_some_le_getLast (D : List Nat) (t b j : Nat)
    (h : find_closest_trading_day D t b = some j) :
    ∃ hne : D.drop b ≠ [], t ≤ (D.drop b).getLast hne := by
  simp only [find_closest_trading_day] at h
  split at h
  · cases h
  next hne =>
    split at h
    next hguard => cases h
    next hguard => exact ⟨hne, Nat.le_of_not_lt hguard⟩

/-- C1: for every sorted date sequence, lower bound, and target present in the
restricted slice, the search returns the index of the first (lowest-index)
occurrence of the target, an index at or after the lower bound. -/
theorem alignment_exact_match (D : List Nat) (t b : Nat)
    (hsort : D.Sorted (· ≤ ·)) (hmem : t ∈ D.drop b) :
    ∃ j, find_closest_trading_day D t b = some j ∧ b ≤ j ∧ j < D.length ∧
      D.getD j 0 = t ∧ ∀ k, b ≤ k → k < j → D.getD k 0 ≠ t := by
  have hne : D.drop b ≠ [] := List.ne_nil_of_mem hmem
  have hslice : (D.drop b).Pairwise (· ≤ ·) :=
    List.Pairwise.sublist (List.drop_sublist b D) hsort
  have hle : t ≤ (D.drop b).getLast hne :=
    mem_le_getLast? (D.drop b) _ t hslice (List.getLast?_eq_getLast _ hne) hmem
  obtain ⟨idx, hidx, hval⟩ := List.mem_iff_getElem.mp hmem
  have hpidx : ((D.drop b).getD idx 0 == t) = true := by
    rw [List.getD_eq_getElem _ _ hidx, hval]; simp
  have hfne : ((List.range (D.drop b).length).filter
      (fun k => (D.drop b).getD k 0 == t)) ≠ [] := by
    intro h0
    have := List.filter_eq_nil_iff.mp h0 idx (List.mem_range.mpr hidx)
    rw [hpidx] at this; cases this rfl
  cases hh : ((List.range (D.drop b).length).filter
      (fun k => (D.drop b).getD k 0 == t)).head? with
  | none => rw [List.head?_eq_none_iff] at hh; cases hfne hh
  | some k0 =>
    obtain ⟨hpk, hkm, hmin⟩ := head?_filter_range _ _ k0 hh
    have hlen : b + k0 < D.length := by rw [List.length_drop] at hkm; omega
    refine ⟨b + k0, ?_, by omega, by omega, ?_, ?_⟩
    · simp only [find_closest_trading_day]
      rw [dif_neg hne, if_neg (Nat.not_lt.mpr hle), hh]
    · have : (D.drop b).getD k0 0 = t := by simpa using hpk
      rwa [getD_drop_eq D b k0 hlen] at this
    · intro k hbk hkj hkt
      have hfalse := hmin (k - b) (by omega)
      have heq : (D.drop b).getD (k - b) 0 = t := by
        rw [getD_drop_eq D b (k - b) (by omega)]
        have hb : b + (k - b) = k := by omega
        rw [hb]; exact hkt
      rw [heq] at hfalse
      simp at hfalse

theorem alignment_exact_match_witness :
    (([10, 20, 30] : List Nat).Sorted (· ≤ ·) ∧ 20 ∈ ([10, 20, 30] : List Nat).drop 0) ∧
    (∃ j, find_closest_trading_day [10, 20, 30] 20 0 = some j ∧ 0 ≤ j ∧
      j < ([10, 20, 30] : List Nat).length ∧ ([10, 20, 30] : List Nat).getD j 0 = 20 ∧
      ∀ k, 0 ≤ k → k < j → ([10, 20, 30] : List Nat).getD k 0 ≠ 20) :=
  ⟨⟨by decide, by decide⟩, alignment_exact_match [10, 20, 30] 20 0 (by decide) (by decide)⟩

/-- C2: for every sorted date sequence, lower bound, and target absent from the
restricted slice, any returned index is in bounds and carries the greatest date
strictly before the target; the search returns no match exactly when no date
strictly before the target exists in the slice or the target is strictly
beyond the last date of the slice. -/
theorem alignment_nearest_before (D : List Nat) (t b : Nat)
    (hsort : D.Sorted (· ≤ ·)) (hnot : t ∉ D.drop b) :
    (∀ j, find_closest_trading_day D t b = some j →
      b ≤ j ∧ j < D.length ∧ D.getD j 0 < t ∧
        ∀ k, b ≤ k → k < D.length → D.getD k 0 < t → D.getD k 0 ≤ D.getD j 0) ∧
    (find_closest_trading_day D t b = none ↔
      ((∀ k, b ≤ k → k < D.length → ¬ D.getD k 0 < t) ∨
        (∀ l, (D.drop b).getLast? = some l → l < t))) := by
  have hmain : ∀ j, find_closest_trading_day D t b = some j →
      b ≤ j ∧ j < D.length ∧ D.getD j 0 < t ∧
        ∀ k, b ≤ k → k < D.length → D.getD k 0 < t → D.getD k 0 ≤ D.getD j 0 := by
    intro j hj
    obtain ⟨hbj, hjn, hjle⟩ := find_closest_some_le D t b j hj
    have hjlt : D.getD j 0 < t := by
      rcases Nat.lt_or_ge (D.getD j 0) t with hlt | hge
      · exact hlt
      · have : D.getD j 0 = t := by omega
        exact absurd (this ▸ getD_mem_drop D b j hbj hjn) hnot
    refine ⟨hbj, hjn, hjlt, ?_⟩
    intro k hbk hkn hkv
    exact sorted_getD_mono D hsort k j
      (find_closest_some_below D t b j hj hjlt k hbk hkn hkv) hjn
  refine ⟨hmain, ?_, ?_⟩
  · intro h
    simp only [find_closest_trading_day] at h
    split at h
    next hempty =>
      left
      intro k hbk hkn
      have : (D.drop b).length = 0 := by rw [hempty]; rfl
      rw [List.length_drop] at this
      omega
    next hne =>
      split at h
      next hguard =>
        right
        intro l hl
        rw [List.getLast?_eq_getLast _ hne] at hl
        rw [← Option.some_inj.mp hl]
        exact hguard
      next hguard =>
        split at h
        next k0 hk0 => cases h
        next =>
          split at h
          next k0 hk0 => cases h
          next hlast =>
            left
            intro k hbk hkn
            have hempty : ((List.range (D.drop b).length).filter
                (fun x => decide ((D.drop b).getD x 0 < t))) = [] := by
              rwa [← List.getLast?_eq_none_iff]
            have hkr : k - b ∈ List.range (D.drop b).length := by
              rw [List.mem_range, List.length_drop]; omega
            intro hkv
            have hkp : (decide ((D.drop b).getD (k - b) 0 < t)) = true := by
              rw [getD_drop_eq D b (k - b) (by omega)]
              have hb : b + (k - b) = k := by omega
              rw [hb]; simpa using hkv
            have := List.filter_eq_nil_iff.mp hempty (k - b) hkr
            rw [hkp] at this; cases this rfl
  · intro hdisj
    cases hres : find_closest_trading_day D t b with
    | none => rfl
    | some j =>
      exfalso
      obtain ⟨hbj, hjn, hjlt, -⟩ := hmain j hres
      rcases hdisj with hnone | hbeyond
      · exact hnone j hbj hjn hjlt
      · obtain ⟨hne, hlast⟩ := find_closest_some_le_getLast D t b j hres
        have := hbeyond ((D.drop b).getLast hne) (List.getLast?_eq_getLast _ hne)
        omega

theorem alignment_nearest_before_witness :
    (([10, 20, 30] : List Nat).Sorted (· ≤ ·) ∧ 25 ∉ ([10, 20, 30] : List Nat).drop 0) ∧
    (find_closest_trading_day [10, 20, 30] 25 0 = some 1 ∧ 0 ≤ 1 ∧
      1 < ([10, 20, 30] : List Nat).length ∧ ([10, 20, 30] : List Nat).getD 1 0 < 25 ∧
      ∀ k, 0 ≤ k → k < ([10, 20, 30] : List Nat).length →
        ([10, 20, 30] : List Nat).getD k 0 < 25 →
        ([10, 20, 30] : List Nat).getD k 0 ≤ ([10, 20, 30] : List Nat).getD 1 0) :=
  ⟨⟨by decide, by decide⟩,
    by
      have h := (alignment_nearest_before [10, 20, 30] 25 0 (by decide) (by decide)).1
        1 (by decide)
      exact ⟨by decide, h.1, h.2.1, h.2.2.1, h.2.2.2⟩⟩

/-- Arithmetic reading of the leap-year test. -/
theorem isLeapYear_iff (y : Nat) :
    isLeapYear y = true ↔ ((y % 4 = 0 ∧ y % 100 ≠ 0) ∨ y % 400 = 0) := by
  unfold isLeapYear
  simp [Bool.or_eq_true, Bool.and_eq_true, beq_iff_eq, bne_iff_ne]

/-- Adding a year to the leap count adds one exactly for leap years. -/
theorem leapYearsBefore_succ (y : Nat) :
    leapYearsBefore (y + 1) = leapYearsBefore y + (if isLeapYear (y + 1) then 1 else 0) := by
  unfold leapYearsBefore
  rcases h : isLeapYear (y + 1)
  · have h' : ¬(((y + 1) % 4 = 0 ∧ (y + 1) % 100 ≠ 0) ∨ (y + 1) % 400 = 0) := by
      rw [← isLeapYear_iff]; simp [h]
    rw [if_neg (by simp)]
    omega
  · have h' := (isLeapYear_iff (y + 1)).mp h
    rw [if_pos rfl]
    omega

/-- Days-in-years accumulate one `daysInYear` per year. -/
theorem daysBeforeYear_succ (y : Nat) :
    daysBeforeYear (y + 1) = daysBeforeYear y + daysInYear (y + 1) := by
  unfold daysBeforeYear daysInYear
  rw [leapYearsBefore_succ]
  rcases h : isLeapYear (y + 1) <;> simp [h] <;> omega

theorem daysBeforeYear_mono {y y' : Nat} (h : y ≤ y') :
    daysBeforeYear y ≤ daysBeforeYear y' := by
  induction y' with
  | zero => have : y = 0 := by omega
            subst this; exact Nat.le_refl _
  | succ n ih =>
    rcases Nat.lt_or_ge y (n + 1) with hlt | hge
    · have h1 := ih (by omega)
      rw [daysBeforeYear_succ]
      omega
    · have : y = n + 1 := by omega
      subst this; exact Nat.le_refl _

theorem daysInMonth_pos (y m : Nat) : 1 ≤ daysInMonth y m := by
  unfold daysInMonth
  split_ifs <;> omega

theorem daysBeforeMonth_mono (y : Nat) {m m' : Nat} (h : m ≤ m') :
    daysBeforeMonth y m ≤ daysBeforeMonth y m' := by
  induction m' with
  | zero => have : m = 0 := by omega
            subst this; exact Nat.le_refl _
  | succ n ih =>
    rcases Nat.lt_or_ge m (n + 1) with hlt | hge
    · have h1 := ih (by omega)
      have h2 : daysBeforeMonth y (n + 1) = daysBeforeMonth y n + daysInMonth y (n + 1) := rfl
      omega
    · have : m = n + 1 := by omega
      subst this; exact Nat.le_refl _

/-- The months of a year hold exactly `daysInYear` days. -/
theorem daysBeforeMonth_twelve (y : Nat) : daysBeforeMonth y 12 = daysInYear y := by
  show 0 + daysInMonth y 1 + daysInMonth y 2 + daysInMonth y 3 + daysInMonth y 4 +
      daysInMonth y 5 + daysInMonth y 6 + daysInMonth y 7 + daysInMonth y 8 +
      daysInMonth y 9 + daysInMonth y 10 + daysInMonth y 11 + daysInMonth y 12 =
      daysInYear y
  unfold daysInMonth daysInYear
  rcases h : isLeapYear y <;> simp [h]

/-- Strict lexicographic order on dates (the chronological order). -/
def Date.lexLt (d1 d2 : Date) : Prop :=
  d1.year < d2.year ∨ (d1.year = d2.year ∧ (d1.month < d2.month ∨
    (d1.month = d2.month ∧ d1.day < d2.day)))

/-- Reflexive closure of `Date.lexLt`. -/
def Date.lexLe (d1 d2 : Date) : Prop :=
  Date.lexLt d1 d2 ∨ d1 = d2

/-- Valid dates have serial numbers below the end of their month block. -/
theorem toSerial_le_month_block (dt : Date) (h : dt.Valid) :
    dt.toSerial ≤ daysBeforeYear (dt.year - 1) + daysBeforeMonth dt.year dt.month := by
  obtain ⟨-, hm1, -, -, hd2⟩ := h
  unfold Date.toSerial
  have hstep : daysBeforeMonth dt.year dt.month =
      daysBeforeMonth dt.year (dt.month - 1) + daysInMonth dt.year dt.month := by
    obtain ⟨m, hm⟩ : ∃ m, dt.month = m + 1 := ⟨dt.month - 1, by omega⟩
    rw [hm]
    simp only [Nat.add_sub_cancel]
    rfl
  omega

/-- The serial number is strictly monotone along chronological order. -/
theorem toSerial_lt_of_lexLt (d1 d2 : Date) (h1 : d1.Valid) (h2 : d2.Valid)
    (h : Date.lexLt d1 d2) : d1.toSerial < d2.toSerial := by
  obtain ⟨hy1, hm1, hm12, hd1, hdm1⟩ := h1
  obtain ⟨hy2, hm2, hm22, hd2, hdm2⟩ := h2
  have hb1 := toSerial_le_month_block d1 ⟨hy1, hm1, hm12, hd1, hdm1⟩
  have hlow2 : daysBeforeYear (d2.year - 1) + daysBeforeMonth d2.year (d2.month - 1) + 1 ≤
      d2.toSerial := by
    unfold Date.toSerial; omega
  rcases h with hy | ⟨hyy, hmm⟩
  · -- d1.year < d2.year
    have hstep : daysBeforeYear d1.year =
        daysBeforeYear (d1.year - 1) + daysInYear d1.year := by
      obtain ⟨n, hn⟩ : ∃ n, d1.year = n + 1 := ⟨d1.year - 1, by omega⟩
      rw [hn]
      simpa only [Nat.add_sub_cancel] using daysBeforeYear_succ n
    have hm12' : daysBeforeMonth d1.year d1.month ≤ daysBeforeMonth d1.year 12 :=
      daysBeforeMonth_mono d1.year hm12
    have h12 := daysBeforeMonth_twelve d1.year
    have hyy' : daysBeforeYear d1.year ≤ daysBeforeYear (d2.year - 1) :=
      daysBeforeYear_mono (by omega)
    have hmono2 : daysBeforeMonth d2.year 0 ≤ daysBeforeMonth d2.year (d2.month - 1) :=
      daysBeforeMonth_mono d2.year (Nat.zero_le _)
    have h0 : daysBeforeMonth d2.year 0 = 0 := rfl
    omega
  · rcases hmm with hm | ⟨hmeq, hdd⟩
    · -- same year, d1.month < d2.month
      have hm12' : daysBeforeMonth d1.year d1.month ≤ daysBeforeMonth d1.year (d2.month - 1) :=
        daysBeforeMonth_mono d1.year (by omega)
      rw [hyy] at hb1 hm12'
      omega
    · -- same year and month, d1.day < d2.day
      unfold Date.toSerial
      rw [hyy, hmeq]
      omega

theorem lexLt_trichotomy (d1 d2 : Date) :
    Date.lexLt d1 d2 ∨ d1 = d2 ∨ Date.lexLt d2 d1 := by
  cases d1 with
  | mk y1 m1 dd1 =>
    cases d2 with
    | mk y2 m2 dd2 =>
      unfold Date.lexLt
      simp only [Date.mk.injEq]
      omega

/-- Chronological comparison recovered from serial comparison. -/
theorem lexLe_of_toSerial_le (d1 d2 : Date) (h1 : d1.Valid) (h2 : d2.Valid)
    (h : d1.toSerial ≤ d2.toSerial) : Date.lexLe d1 d2 := by
  rcases lexLt_trichotomy d1 d2 with hlt | heq | hgt
  · exact Or.inl hlt
  · exact Or.inr heq
  · have := toSerial_lt_of_lexLt d2 d1 h2 h1 hgt
    omega

theorem toSerial_le_of_lexLe (d1 d2 : Date) (h1 : d1.Valid) (h2 : d2.Valid)
    (h : Date.lexLe d1 d2) : d1.toSerial ≤ d2.toSerial := by
  rcases h with hlt | rfl
  · exact Nat.le_of_lt (toSerial_lt_of_lexLt d1 d2 h1 h2 hlt)
  · exact Nat.le_refl _

/-- Year-shifting preserves validity. -/
theorem addYears_valid (n : Nat) (dt : Date) (h : dt.Valid) :
    (Date.addYears n dt).Valid := by
  obtain ⟨hy, hm1, hm2, hd1, hd2⟩ := h
  refine ⟨by simpa [Date.addYears] using by omega, by simpa [Date.addYears] using hm1,
    by simpa [Date.addYears] using hm2, ?_, ?_⟩
  · have := daysInMonth_pos (dt.year + n) dt.month
    simp only [Date.addYears]
    omega
  · simp only [Date.addYears]
    exact Nat.min_le_right _ _

/-- Year-shifting is monotone for the chronological order (the clamp can
collapse two distinct days onto the same day, but never reverses them). -/
theorem addYears_lexLe_mono (n : Nat) (d1 d2 : Date) (h : Date.lexLe d1 d2) :
    Date.lexLe (Date.addYears n d1) (Date.addYears n d2) := by
  rcases h with hlt | rfl
  · rcases hlt with hy | ⟨hyy, hm | ⟨hmeq, hdd⟩⟩
    · exact Or.inl (Or.inl (by simp only [Date.addYears]; omega))
    · exact Or.inl (Or.inr ⟨by simp only [Date.addYears]; omega,
        Or.inl (by simp only [Date.addYears]; omega)⟩)
    · -- same year and month: compare clamped days
      have hclamp : daysInMonth (d1.year + n) d1.month =
          daysInMonth (d2.year + n) d2.month := by rw [hyy, hmeq]
      rcases Nat.lt_or_ge (min d1.day (daysInMonth (d1.year + n) d1.month))
          (min d2.day (daysInMonth (d2.year + n) d2.month)) with hmin | hmin
      · exact Or.inl (Or.inr ⟨by simp only [Date.addYears]; omega,
          Or.inr ⟨by simp only [Date.addYears]; omega,
            by simpa only [Date.addYears] using hmin⟩⟩)
      · right
        simp only [Date.addYears, Date.mk.injEq]
        refine ⟨by omega, by omega, ?_⟩
        have hle2 : min d1.day (daysInMonth (d1.year + n) d1.month) ≤
            min d2.day (daysInMonth (d2.year + n) d2.month) := by
          rw [hyy, hmeq]
          exact min_le_min (Nat.le_of_lt hdd) (Nat.le_refl _)
        omega
  · exact Or.inr rfl

/-- Targets computed by `DateOffset(years)` respect the serial order of their
source dates. -/
theorem target_serial_mono (years : Nat) (d1 d2 : Date) (h1 : d1.Valid) (h2 : d2.Valid)
    (h : d1.toSerial ≤ d2.toSerial) :
    (Date.addYears years d1).toSerial ≤ (Date.addYears years d2).toSerial :=
  toSerial_le_of_lexLe _ _ (addYears_valid years d1 h1) (addYears_valid years d2 h2)
    (addYears_lexLe_mono years d1 d2 (lexLe_of_toSerial_le d1 d2 h1 h2 h))

/-- Joint monotonicity of the search in target and lower bound over a sorted
date array: a later target with a later lower bound never matches earlier. -/
theorem find_closest_mono (D : List Nat) (t t' b b' j j' : Nat)
    (hsort : D.Sorted (· ≤ ·)) (hb : b ≤ b') (ht : t ≤ t')
    (h : find_closest_trading_day D t b = some j)
    (h' : find_closest_trading_day D t' b' = some j') : j ≤ j' := by
  by_contra hc
  push_neg at hc
  obtain ⟨hbj, hjn, hjle⟩ := find_closest_some_le D t b j h
  obtain ⟨hbj', hjn', hjle'⟩ := find_closest_some_le D t' b' j' h'
  have hDle : D.getD j' 0 ≤ D.getD j 0 := sorted_getD_mono D hsort j' j (by omega) hjn
  rcases Nat.lt_or_ge (D.getD j' 0) t' with hblw | hge
  · rcases Nat.lt_or_ge (D.getD j 0) t' with hjlt' | hjge'
    · have := find_closest_some_below D t' b' j' h' hblw j (by omega) hjn hjlt'
      omega
    · exact find_closest_some_no_exact D t' b' j' h' hblw j (by omega) hjn (by omega)
  · have hjt : D.getD j 0 = t := by omega
    exact find_closest_some_exact D t b j h hjt j' (by omega) hc (by omega)

/-- Reading a mapped range at an in-range index applies the function. -/
theorem getD_map_range {α : Type} (n : Nat) (f : Nat → α) (d : α) (i : Nat) (h : i < n) :
    ((List.range n).map f).getD i d = f i := by
  have hl : i < ((List.range n).map f).length := by
    rw [List.length_map, List.length_range]; exact h
  rw [List.getD_eq_getElem _ _ hl, List.getElem_map, List.getElem_range]

/-- Reading a mapped list at an in-range index applies the function. -/
theorem getD_map_eq {α β : Type} (l : List α) (f : α → β) (d : β) (d' : α) (i : Nat)
    (h : i < l.length) : (l.map f).getD i d = f (l.getD i d') := by
  have hl : i < (l.map f).length := by rw [List.length_map]; exact h
  rw [List.getD_eq_getElem _ _ hl, List.getElem_map, List.getD_eq_getElem _ _ h]

/-- C10 (implicit): matched end indices are monotone across rows of a sorted,
valid table — a later start row never resolves to an earlier end row. -/
theorem to_indices_monotone (dates : List Date) (years : Nat)
    (hvalid : ∀ dt ∈ dates, dt.Valid)
    (hsorted : (dates.map Date.toSerial).Sorted (· ≤ ·))
    (i i' j j' : Nat) (hii : i < i')
    (hj : (toIndices dates years).getD i none = some j)
    (hj' : (toIndices dates years).getD i' none = some j') : j ≤ j' := by
  have hlen : ∀ k, dates.length ≤ k → (toIndices dates years).getD k none = none := by
    intro k hk
    apply List.getD_eq_default
    simp only [toIndices, List.length_map, List.length_range]
    exact hk
  have hi : i < dates.length := by
    by_contra hco
    rw [hlen i (by omega)] at hj; cases hj
  have hi' : i' < dates.length := by
    by_contra hco
    rw [hlen i' (by omega)] at hj'; cases hj'
  rw [toIndices] at hj hj'
  rw [getD_map_range _ _ _ i hi] at hj
  rw [getD_map_range _ _ _ i' hi'] at hj'
  have htgt : (dates.map (fun dt => (Date.addYears years dt).toSerial)).getD i 0 ≤
      (dates.map (fun dt => (Date.addYears years dt).toSerial)).getD i' 0 := by
    rw [getD_map_eq dates _ 0 ⟨0, 0, 0⟩ i hi, getD_map_eq dates _ 0 ⟨0, 0, 0⟩ i' hi']
    have hv1 : (dates.getD i ⟨0, 0, 0⟩).Valid :=
      hvalid _ (by rw [List.getD_eq_getElem _ _ hi]; exact List.getElem_mem hi)
    have hv2 : (dates.getD i' ⟨0, 0, 0⟩).Valid :=
      hvalid _ (by rw [List.getD_eq_getElem _ _ hi']; exact List.getElem_mem hi')
    apply target_serial_mono years _ _ hv1 hv2
    have := sorted_getD_mono (dates.map Date.toSerial) hsorted i i' (by omega)
      (by rw [List.length_map]; exact hi')
    rwa [getD_map_eq dates _ 0 ⟨0, 0, 0⟩ i hi, getD_map_eq dates _ 0 ⟨0, 0, 0⟩ i' hi'] at this
  exact find_closest_mono (dates.map Date.toSerial) _ _ i i' j j' hsorted
    (by omega) htgt hj hj'

theorem to_indices_monotone_witness :
    ((∀ dt ∈ scenarioDates, dt.Valid) ∧
      (scenarioDates.map Date.toSerial).Sorted (· ≤ ·) ∧ 0 < 1 ∧
      (toIndices scenarioDates 1).getD 0 none = some 1 ∧
      (toIndices scenarioDates 1).getD 1 none = some 2) ∧ 1 ≤ 2 :=
  ⟨⟨by decide, by decide, by decide, by decide, by decide⟩,
    to_indices_monotone scenarioDates 1 (by decide) (by decide) 0 1 1 2 (by decide)
      (by decide) (by decide)⟩

/-- C6: every retained row has a non-empty To-date, the pre-filter table has
one row per input row, the dropped-row count is input rows minus retained
rows, and the retained rows are a sublist of the pre-filter table (so they
keep the ascending-date order of the sorted input). -/
theorem row_drop_consistency (dates : List Date) (cols : List (List (Option ℚ)))
    (years : Nat) :
    (∀ r ∈ calculate_returns_optimized dates cols years, r.toDate ≠ "") ∧
    (preResult dates cols years).length = dates.length ∧
    droppedRowCount dates cols years =
      dates.length - (calculate_returns_optimized dates cols years).length ∧
    List.Sublist (calculate_returns_optimized dates cols years)
      (preResult dates cols years) := by
  have hlen : (preResult dates cols years).length = dates.length := by
    simp only [preResult, List.length_map, List.length_range, sortedDates, sortPerm,
      List.length_insertionSort]
  refine ⟨?_, hlen, ?_, ?_⟩
  · intro r hr
    have hmem := List.mem_filter.mp hr
    simpa using hmem.2
  · rw [droppedRowCount, hlen]
  · exact List.filter_sublist _

theorem row_drop_consistency_witness :
    (⟨"01/01/2020", "01/01/2021", []⟩ : ResultRow) ∈
        calculate_returns_optimized scenarioDates [] 1 ∧
      (⟨"01/01/2020", "01/01/2021", []⟩ : ResultRow).toDate ≠ "" ∧
      droppedRowCount scenarioDates [] 1 =
        scenarioDates.length - (calculate_returns_optimized scenarioDates [] 1).length :=
  ⟨by decide, (row_drop_consistency scenarioDates [] 1).1 _ (by decide),
    (row_drop_consistency scenarioDates [] 1).2.2.1⟩

/-- C9: the per-period computation and the full run are pure functions:
recomputing on the unchanged input yields the identical result. -/
theorem computation_deterministic (dates : List Date)
    (cols : List (List (Option ℚ))) (years : Nat) :
    calculate_returns_optimized dates cols years =
      calculate_returns_optimized dates cols years ∧
    allPeriodsResult dates cols = allPeriodsResult dates cols :=
  ⟨rfl, rfl⟩

theorem getD_all_none (col : List (Option ℚ)) (hnone : ∀ v ∈ col, v = none) (x : Nat) :
    col.getD x none = none := by
  rcases Nat.lt_or_ge x col.length with hx | hx
  · rw [List.getD_eq_getElem _ _ hx]; exact hnone _ (List.getElem_mem hx)
  · exact List.getD_eq_default _ _ hx

theorem sortedCol_all_none (dates : List Date) (col : List (Option ℚ))
    (hnone : ∀ v ∈ col, v = none) (k : Nat) :
    (sortedCol dates col).getD k none = none := by
  unfold sortedCol
  rcases Nat.lt_or_ge k (sortPerm (dates.map Date.toSerial)).length with hk | hk
  · rw [getD_map_eq _ _ none 0 k hk]
    exact getD_all_none col hnone _
  · exact List.getD_eq_default _ _ (by rw [List.length_map]; exact hk)

/-- A cell computed from an all-missing series is empty. -/
theorem computeCell_all_none (dates_array : List Nat) (series : List (Option ℚ))
    (hnone : ∀ x, series.getD x none = none) (years i : Nat) (to_idx : Option Nat) :
    computeCell dates_array series years i to_idx = none := by
  cases to_idx with
  | none => rfl
  | some j => exact computeCell_eq_none_of_invalid _ _ _ _ _ (Or.inl (hnone i))

/-- Mapping after filtering a mapped list depends only on the composed
per-element behaviour. -/
theorem map_filter_ext {α β γ : Type} (L : List α) (f f' : α → β) (p : β → Bool)
    (g g' : β → γ)
    (hp : ∀ a ∈ L, p (f a) = p (f' a))
    (hg : ∀ a ∈ L, g (f a) = g' (f' a)) :
    ((L.map f).filter p).map g = ((L.map f').filter p).map g' := by
  induction L with
  | nil => rfl
  | cons a l ih =>
    have hpa := hp a (List.mem_cons_self a l)
    have hga := hg a (List.mem_cons_self a l)
    have ih' := ih (fun x hx => hp x (List.mem_cons_of_mem a hx))
      (fun x hx => hg x (List.mem_cons_of_mem a hx))
    simp only [List.map_cons, List.filter_cons]
    cases hpb : p (f a) with
    | false =>
      have hpb' : p (f' a) = false := by rw [← hpa]; exact hpb
      simp only [hpb, hpb', Bool.false_eq_true, if_false]
      exact ih'
    | true =>
      have hpb' : p (f' a) = true := by rw [← hpa]; exact hpb
      simp only [hpb, hpb', if_true]
      simp only [List.map_cons]
      rw [hga, ih']

/-- C7: a column whose values are entirely missing after numeric coercion
still yields an all-empty column for the period, and neither the From/To
columns, the retained rows, nor any other column's cells depend on it. -/
theorem unparseable_column_recovered (dates : List Date)
    (cols cols' : List (List (Option ℚ))) (years : Nat) (c : Nat)
    (hc : c < cols.length)
    (hnone : ∀ v ∈ cols.getD c [], v = none)
    (hlen : cols'.length = cols.length)
    (hother : ∀ k, k ≠ c → cols'.getD k [] = cols.getD k []) :
    (∀ r ∈ calculate_returns_optimized dates cols years,
      cellStr (r.cells.getD c none) = "") ∧
    ((calculate_returns_optimized dates cols years).map
        (fun r => (r.fromDate, r.toDate)) =
      (calculate_returns_optimized dates cols' years).map
        (fun r => (r.fromDate, r.toDate))) ∧
    (∀ k, k ≠ c →
      (calculate_returns_optimized dates cols years).map
        (fun r => r.cells.getD k none) =
      (calculate_returns_optimized dates cols' years).map
        (fun r => r.cells.getD k none)) := by
  have hcells : ∀ (cs : List (List (Option ℚ))) (i : Nat) (k : Nat) (hk : k < cs.length),
      ((cs.map (fun col => computeCell ((sortedDates dates).map Date.toSerial)
          (sortedCol dates col) years i
          ((toIndices (sortedDates dates) years).getD i none))).getD k none) =
        computeCell ((sortedDates dates).map Date.toSerial)
          (sortedCol dates (cs.getD k [])) years i
          ((toIndices (sortedDates dates) years).getD i none) := by
    intro cs i k hk
    exact getD_map_eq cs _ none [] k hk
  refine ⟨?_, ?_, ?_⟩
  · intro r hr
    have hrpre : r ∈ preResult dates cols years := List.mem_of_mem_filter hr
    obtain ⟨i, hi, hrow⟩ := List.mem_map.mp hrpre
    rw [← hrow]
    show cellStr (((cols.map (fun col => computeCell _ (sortedCol dates col) years i _)).getD
      c none)) = ""
    rw [hcells cols i c hc]
    rw [computeCell_all_none _ _ (sortedCol_all_none dates _ hnone) _ _]
    · rfl
  · simp only [calculate_returns_optimized, preResult]
    apply map_filter_ext
    · intro i hi; rfl
    · intro i hi; rfl
  · intro k hk
    simp only [calculate_returns_optimized, preResult]
    apply map_filter_ext
    · intro i hi; rfl
    · intro i hi
      show ((cols.map _).getD k none) = ((cols'.map _).getD k none)
      rcases Nat.lt_or_ge k cols.length with hklt | hkge
      · rw [hcells cols i k hklt, hcells cols' i k (by omega), hother k hk]
      · rw [List.getD_eq_default _ _ (by rw [List.length_map]; omega),
          List.getD_eq_default _ _ (by rw [List.length_map]; omega)]

theorem unparseable_column_recovered_witness :
    (0 < ([[none, none, none]] : List (List (Option ℚ))).length ∧
      (∀ v ∈ ([[none, none, none]] : List (List (Option ℚ))).getD 0 [], v = none)) ∧
    (⟨"01/01/2020", "01/01/2021", [none]⟩ : ResultRow) ∈
      calculate_returns_optimized scenarioDates [[none, none, none]] 1 ∧
    cellStr ((⟨"01/01/2020", "01/01/2021", [none]⟩ : ResultRow).cells.getD 0 none) = "" :=
  ⟨⟨by decide, by decide⟩, by decide,
    (unparseable_column_recovered scenarioDates [[none, none, none]] [[none, none, none]]
      1 0 (by decide) (by decide) rfl (fun _ _ => rfl)).1
      ⟨"01/01/2020", "01/01/2021", [none]⟩ (by decide)⟩

example : List.map Date.toSerial scenarioDates = [737425, 737791, 738156] := by decide

/-- Scenario A, row 0: exact 1-year alignment over 366 elapsed days. -/
theorem scenario_cell0 :
    computeCell (List.map Date.toSerial scenarioDates) [some 100, some 110, some 121] 1 0
      (some 1) = some (1 / 10, 1464 / 1461) := by
  have hserial : List.map Date.toSerial scenarioDates = [737425, 737791, 738156] := by decide
  rw [hserial]
  rw [computeCell_eq_some [737425, 737791, 738156] [some 100, some 110, some 121] 1 0 1
    100 110 rfl rfl (by norm_num) (by decide) (by norm_num)]
  norm_num

/-- Scenario A, row 1: exact 1-year alignment over 365 elapsed days. -/
theorem scenario_cell1 :
    computeCell (List.map Date.toSerial scenarioDates) [some 100, some 110, some 121] 1 1
      (some 2) = some (1 / 10, 1460 / 1461) := by
  have hserial : List.map Date.toSerial scenarioDates = [737425, 737791, 738156] := by decide
  rw [hserial]
  rw [computeCell_eq_some [737425, 737791, 738156] [some 100, some 110, some 121] 1 1 2
    110 121 rfl rfl (by norm_num) (by decide) (by norm_num)]
  norm_num

/-- Scenario A: the pre-filter result table, row by row. -/
theorem scenario_preResult :
    preResult scenarioDates scenarioCols 1 =
      [⟨"01/01/2020", "01/01/2021", [some (1 / 10, 1464 / 1461)]⟩,
       ⟨"01/01/2021", "01/01/2022", [some (1 / 10, 1460 / 1461)]⟩,
       ⟨"01/01/2022", "", [none]⟩] := by
  have hsd : sortedDates scenarioDates = scenarioDates := by decide
  have hsc : sortedCol scenarioDates [some 100, some 110, some 121] =
      [some 100, some 110, some 121] := by decide
  have hti0 : (toIndices scenarioDates 1).getD 0 none = some 1 := by decide
  have hti1 : (toIndices scenarioDates 1).getD 1 none = some 2 := by decide
  have hti2 : (toIndices scenarioDates 1).getD 2 none = none := by decide
  simp only [preResult, scenarioCols]
  rw [hsd]
  have hr : List.range scenarioDates.length = [0, 1, 2] := by decide
  rw [hr]
  simp only [List.map_cons, List.map_nil, List.cons.injEq, and_true]
  refine ⟨?_, ?_, ?_⟩
  · rw [hti0, hsc]
    simp only [ResultRow.mk.injEq, List.cons.injEq, and_true]
    exact ⟨by decide, by decide, scenario_cell0⟩
  · rw [hti1, hsc]
    simp only [ResultRow.mk.injEq, List.cons.injEq, and_true]
    exact ⟨by decide, by decide, scenario_cell1⟩
  · rw [hti2, hsc]
    simp only [ResultRow.mk.injEq, List.cons.injEq, and_true]
    exact ⟨by decide, trivial, rfl⟩

/-- Scenario A: the period result keeps the two aligned rows and drops the
1/1/2022 row. -/
theorem scenario_calc_eval :
    calculate_returns_optimized scenarioDates scenarioCols 1 =
      [⟨"01/01/2020", "01/01/2021", [some (1 / 10, 1464 / 1461)]⟩,
       ⟨"01/01/2021", "01/01/2022", [some (1 / 10, 1460 / 1461)]⟩] := by
  rw [calculate_returns_optimized, scenario_preResult]
  rfl

theorem scenario_droppedRowCount : droppedRowCount scenarioDates scenarioCols 1 = 1 := by
  rw [droppedRowCount, scenario_preResult, scenario_calc_eval]
  rfl

/-- Two-sided bound on `(11/10) ^ (p/q)` from `q`-th-power comparisons. -/
theorem rpow_bounds (p q : Nat) (lo hi : ℝ) (hq : q ≠ 0) (hhi0 : 0 ≤ hi)
    (hlow : lo ^ q ≤ (11 / 10 : ℝ) ^ p) (hhi : (11 / 10 : ℝ) ^ p < hi ^ q) :
    lo ≤ (11 / 10 : ℝ) ^ ((p : ℝ) / (q : ℝ)) ∧
      (11 / 10 : ℝ) ^ ((p : ℝ) / (q : ℝ)) < hi := by
  have hbase : (0 : ℝ) < 11 / 10 := by norm_num
  have ha : (0 : ℝ) < (11 / 10 : ℝ) ^ ((p : ℝ) / (q : ℝ)) :=
    Real.rpow_pos_of_pos hbase _
  have hqr : ((q : ℕ) : ℝ) ≠ 0 := by exact_mod_cast hq
  have hpow : ((11 / 10 : ℝ) ^ ((p : ℝ) / (q : ℝ))) ^ q = (11 / 10 : ℝ) ^ p := by
    rw [← Real.rpow_natCast ((11 / 10 : ℝ) ^ ((p : ℝ) / (q : ℝ))) q,
      ← Real.rpow_mul (le_of_lt hbase), div_mul_cancel₀ _ hqr, Real.rpow_natCast]
  constructor
  · exact le_of_pow_le_pow_left₀ hq (le_of_lt ha) (by rw [hpow]; exact hlow)
  · exact lt_of_pow_lt_pow_left₀ q hhi0 (by rw [hpow]; exact hhi)

set_option maxHeartbeats 2000000

/-- The first Scenario A cell: `(1.1 ^ (365.25/366) − 1) · 100` formats to
`9.98%`, not `10.00%` (the 366 actual elapsed days annualize below 10%). -/
theorem cellStr_scenario_row0 : cellStr (some ((1 : ℚ) / 10, 1464 / 1461)) = "9.98%" := by
  have hcast1 : (1 : ℝ) + (((1 : ℚ) / 10 : ℚ) : ℝ) = 11 / 10 := by push_cast; norm_num
  have hcast2 : (1 : ℝ) / (((1464 : ℚ) / 1461 : ℚ) : ℝ) = ((487 : ℕ) : ℝ) / ((488 : ℕ) : ℝ) := by
    push_cast; norm_num
  show fmtPercent (annualizedReturnPct ((1 : ℚ) / 10) (1464 / 1461)) = "9.98%"
  unfold annualizedReturnPct fmtPercent
  rw [hcast1, hcast2]
  obtain ⟨hlo, hhi⟩ := rpow_bounds 487 488 (4399 / 4000) (21997 / 20000)
    (by norm_num) (by norm_num) (by norm_num) (by norm_num)
  have hfloor : ⌊(((11 / 10 : ℝ) ^ (((487 : ℕ) : ℝ) / ((488 : ℕ) : ℝ)) - 1) * 100) * 100
      + 1 / 2⌋ = (998 : ℤ) := by
    rw [Int.floor_eq_iff]
    push_cast
    constructor
    · linarith [hlo]
    · linarith [hhi]
  rw [hfloor]
  decide

/-- The second Scenario A cell: `(1.1 ^ (365.25/365) − 1) · 100` formats to
`10.01%`, not `10.00%` (the 365 actual elapsed days annualize above 10%). -/
theorem cellStr_scenario_row1 : cellStr (some ((1 : ℚ) / 10, 1460 / 1461)) = "10.01%" := by
  have hcast1 : (1 : ℝ) + (((1 : ℚ) / 10 : ℚ) : ℝ) = 11 / 10 := by push_cast; norm_num
  have hcast2 : (1 : ℝ) / (((1460 : ℚ) / 1461 : ℚ) : ℝ) = ((1461 : ℕ) : ℝ) / ((1460 : ℕ) : ℝ) := by
    push_cast; norm_num
  show fmtPercent (annualizedReturnPct ((1 : ℚ) / 10) (1460 / 1461)) = "10.01%"
  unfold annualizedReturnPct fmtPercent
  rw [hcast1, hcast2]
  obtain ⟨hlo, hhi⟩ := rpow_bounds 1461 1460 (22001 / 20000) (22003 / 20000)
    (by norm_num) (by norm_num) (by norm_num) (by norm_num)
  have hfloor : ⌊(((11 / 10 : ℝ) ^ (((1461 : ℕ) : ℝ) / ((1460 : ℕ) : ℝ)) - 1) * 100) * 100
      + 1 / 2⌋ = (1001 : ℤ) := by
    rw [Int.floor_eq_iff]
    push_cast
    constructor
    · linarith [hlo]
    · linarith [hhi]
  rw [hfloor]
  decide

/-- C3 counterexample: on Scenario A (dates 1/1/2020, 1/1/2021, 1/1/2022,
series 100, 110, 121, years = 1) the first retained row's return cell is
`9.98%`, not `10.00%` as the specification scenario states: the code
annualizes with the actual 366 elapsed days, `(1.1 ^ (365.25/366) − 1) · 100`. -/
theorem scenarioA_counterexample :
    cellStr (((calculate_returns_optimized scenarioDates scenarioCols 1).getD 0
      ⟨"", "", []⟩).cells.getD 0 none) ≠ "10.00%" ∧
    cellStr (((calculate_returns_optimized scenarioDates scenarioCols 1).getD 0
      ⟨"", "", []⟩).cells.getD 0 none) = "9.98%" := by
  rw [scenario_calc_eval]
  constructor
  · show cellStr (some ((1 : ℚ) / 10, 1464 / 1461)) ≠ "10.00%"
    rw [cellStr_scenario_row0]
    decide
  · show cellStr (some ((1 : ℚ) / 10, 1464 / 1461)) = "9.98%"
    exact cellStr_scenario_row0

/-- C3 (amended): for dates [1/1/2020, 1/1/2021, 1/1/2022], one series
[100, 110, 121] and years = 1 the period result has exactly two rows —
From 01/01/2020 To 01/01/2021 with return cell `9.98%` (annualized over the
366 actual elapsed days) and From 01/01/2021 To 01/01/2022 with return cell
`10.01%` (365 elapsed days) — and the 1/1/2022 row is unmatched and dropped. -/
theorem scenarioA_amended :
    calculate_returns_optimized scenarioDates scenarioCols 1 =
      [⟨"01/01/2020", "01/01/2021", [some (1 / 10, 1464 / 1461)]⟩,
       ⟨"01/01/2021", "01/01/2022", [some (1 / 10, 1460 / 1461)]⟩] ∧
    cellStr (some ((1 : ℚ) / 10, 1464 / 1461)) = "9.98%" ∧
    cellStr (some ((1 : ℚ) / 10, 1460 / 1461)) = "10.01%" ∧
    droppedRowCount scenarioDates scenarioCols 1 = 1 :=
  ⟨scenario_calc_eval, cellStr_scenario_row0, cellStr_scenario_row1,
    scenario_droppedRowCount⟩

example : find_closest_trading_day [10, 20, 30] 20 0 = some 1 := by decide
example : find_closest_trading_day [10, 20, 30] 25 0 = some 1 := by decide
example : find_closest_trading_day [10, 20, 30] 31 0 = none := by decide
example : find_closest_trading_day [10, 20, 30] 25 2 = none := by decide
example : find_closest_trading_day [10, 20, 30] 5 0 = none := by decide
example : find_closest_trading_day [] 5 0 = none := by decide
example : Date.toSerial ⟨2021, 1, 1⟩ - Date.toSerial ⟨2020, 1, 1⟩ = 366 := by decide
example : Date.toSerial ⟨2022, 1, 1⟩ - Date.toSerial ⟨2021, 1, 1⟩ = 365 := by decide
example : Date.addYears 1 ⟨2020, 2, 29⟩ = ⟨2021, 2, 28⟩ := by decide
